import Mathlib

/-!
Verification of the watson-recipe-bot JanusGraph store and client.

Strings from the JavaScript source are modelled as `List Char`; the
stateful JanusGraph server that evaluates the store's Gremlin traversals
is modelled as an explicit `GraphState` threaded through the operations.
Promise-returning functions are modelled as pure functions on the
response (or on the graph state) reached on the resolved path; a
transport failure is an `Except.error`.
-/

/-- The whitespace characters stripped by `String.prototype.trim`
(restricted to the ASCII whitespace the repository's inputs contain). -/
def jsWhitespace (c : Char) : Bool :=
  c = ' ' || c = '\t' || c = '\n' || c = '\r'

/-- JavaScript `s.trim()`: strip leading and trailing whitespace. -/
def jsTrim (s : List Char) : List Char :=
  ((s.dropWhile jsWhitespace).reverse.dropWhile jsWhitespace).reverse

/-- JavaScript `s.toLowerCase()` (ASCII case folding). -/
def jsToLower (s : List Char) : List Char :=
  s.map Char.toLower

/-- JavaScript `s.split(',')`. -/
def splitOnComma : List Char → List (List Char)
  | [] => [[]]
  | c :: rest =>
    if c = ',' then [] :: splitOnComma rest
    else
      match splitOnComma rest with
      | [] => [[c]]
      | t :: ts => (c :: t) :: ts

/-- JavaScript `parts.join(',')`. -/
def joinComma : List (List Char) → List Char
  | [] => []
  | [x] => x
  | x :: xs => x ++ ',' :: joinComma xs

/-- Lexicographic comparison of strings by code units, the default
comparison used by JavaScript `Array.prototype.sort()` on strings. -/
def lexLe : List Char → List Char → Bool
  | [], _ => true
  | _ :: _, [] => false
  | a :: as, b :: bs =>
    if a < b then true else if b < a then false else lexLe as bs

def lexLe_total : ∀ a b : List Char, lexLe a b = true ∨ lexLe b a = true
  | [], _ => .inl rfl
  | _ :: _, [] => .inr rfl
  | a :: as, b :: bs => by
    rcases lt_trichotomy a b with h | h | h
    · exact .inl (by simp [lexLe, h])
    · subst h
      rcases lexLe_total as bs with h2 | h2
      · exact .inl (by simp [lexLe, h2])
      · exact .inr (by simp [lexLe, h2])
    · exact .inr (by simp [lexLe, h])

def lexLe_antisymm : ∀ a b : List Char,
    lexLe a b = true → lexLe b a = true → a = b
  | [], [], _, _ => rfl
  | [], _ :: _, _, h2 => by simp [lexLe] at h2
  | _ :: _, [], h1, _ => by simp [lexLe] at h1
  | a :: as, b :: bs, h1, h2 => by
    rcases lt_trichotomy a b with h | h | h
    · simp [lexLe, h, asymm h] at h2
    · subst h
      simp only [lexLe, lt_irrefl, if_false] at h1 h2
      exact congrArg (a :: ·) (lexLe_antisymm as bs h1 h2)
    · simp [lexLe, h, asymm h] at h1

def lexLe_trans : ∀ a b c : List Char,
    lexLe a b = true → lexLe b c = true → lexLe a c = true
  | [], _, _, _, _ => rfl
  | _ :: _, [], _, h1, _ => by simp [lexLe] at h1
  | _ :: _, _ :: _, [], _, h2 => by simp [lexLe] at h2
  | a :: as, b :: bs, c :: cs, h1, h2 => by
    rcases lt_trichotomy a b with hab | hab | hab
    · rcases lt_trichotomy b c with hbc | hbc | hbc
      · simp [lexLe, lt_trans hab hbc]
      · subst hbc; simp [lexLe, hab]
      · simp [lexLe, hbc, asymm hbc] at h2
    · subst hab
      rcases lt_trichotomy a c with hbc | hbc | hbc
      · simp [lexLe, hbc]
      · subst hbc
        simp only [lexLe, lt_irrefl, if_false] at h1 h2 ⊢
        exact lexLe_trans as bs cs h1 h2
      · simp [lexLe, hbc, asymm hbc] at h2
    · simp [lexLe, hab, asymm hab] at h1

instance : IsTotal (List Char) (fun a b => lexLe a b = true) :=
  ⟨lexLe_total⟩

instance : IsTrans (List Char) (fun a b => lexLe a b = true) :=
  ⟨lexLe_trans⟩

instance : IsAntisymm (List Char) (fun a b => lexLe a b = true) :=
  ⟨lexLe_antisymm⟩

/-- Source `JanusGraphRecipeStore.getUniqueIngredientsName`: trim and lower-case
the whole string, split on commas, trim each element, sort, rejoin. -/
def getUniqueIngredientsName (ingredientsStr : List Char) : List Char :=
  let ingredients := (splitOnComma (jsToLower (jsTrim ingredientsStr))).map jsTrim
  joinComma (List.insertionSort (fun a b => lexLe a b = true) ingredients)

/-- The multiset of canonical elements named by an ingredient-list string:
what remains of each comma-separated element after case folding and
trimming.  Two inputs differing only in element order, casing or
per-element surrounding whitespace have permuted `ingredientElems`. -/
def ingredientElems (s : List Char) : List (List Char) :=
  (splitOnComma (jsToLower (jsTrim s))).map jsTrim

/-- Does `pat` start the string `s`? -/
def leadsWith : List Char → List Char → Bool
  | [], _ => true
  | _ :: _, [] => false
  | p :: ps, c :: cs => p = c && leadsWith ps cs

/-- JavaScript `s.replace(new RegExp(pat, 'g'), rep)` for a literal
pattern `pat`: scan left to right, replace each leftmost non-overlapping
occurrence, never rescanning the replacement text. -/
def replaceAll (pat rep : List Char) (s : List Char) : List Char :=
  match s with
  | [] => []
  | c :: rest =>
    if h : pat ≠ [] ∧ leadsWith pat (c :: rest) = true then
      rep ++ replaceAll pat rep ((c :: rest).drop pat.length)
    else
      c :: replaceAll pat rep rest
termination_by s.length
decreasing_by
  · simp only [List.length_drop, List.length_cons]
    exact Nat.sub_lt (Nat.succ_pos _) (List.length_pos.mpr h.1)
  · simp

/-- Does the sequence `pat` occur anywhere in `s`? -/
def occursIn (pat : List Char) : List Char → Bool
  | [] => pat.isEmpty
  | c :: rest => leadsWith pat (c :: rest) || occursIn pat rest

/-- Character-by-character substitution; the extensional effect of a
global single-character replace. -/
def charSubst (f : Char → List Char) : List Char → List Char
  | [] => []
  | c :: rest => f c ++ charSubst f rest

/-- Source `JanusGraphClient.escapeStringValue`: first rewrite every
backslash-escaped double quote, then escape every double quote, then
escape every dollar sign. -/
def escapeStringValue (value : List Char) : List Char :=
  let v1 := replaceAll ['\\', '"'] ['\\', '\\', '"'] value
  let v2 := replaceAll ['"'] ['\\', '"'] v1
  replaceAll ['$'] ['\\', '$'] v2

/-- The recipe vertex at `path.objects[1]` of one traversal path returned
to `getRecommendedRecipes`, reduced to the two property values the code
reads (`properties.name[0].value` and `properties.title[0].value`). -/
structure RecipePathVertex where
  name : String
  title : String
deriving DecidableEq

/-- One entry of the list built by `getRecommendedRecipes`. -/
structure RecommendedRecipe where
  id : String
  title : String
  recommendedUserCount : Nat
deriving DecidableEq

/-- One iteration of the loop body of
`JanusGraphRecipeStore.getRecommendedRecipes`: a hash hit increments the
stored entry's `recommendedUserCount` (the hash and the array share the
entry, so the map below is the in-place mutation); a miss is dropped when
`count` entries already exist and appended with count 1 otherwise. -/
def getRecommendedRecipesStep (count : Nat) (recipes : List RecommendedRecipe)
    (v : RecipePathVertex) : List RecommendedRecipe :=
  if recipes.any (fun r => r.id == v.name) then
    recipes.map (fun r =>
      if r.id == v.name then
        {r with recommendedUserCount := r.recommendedUserCount + 1}
      else r)
  else if count ≤ recipes.length then
    recipes
  else
    recipes ++ [⟨v.name, v.title, 1⟩]

/-- Source `JanusGraphRecipeStore.getRecommendedRecipes` on the traversal paths
of a status-200 response (an absent or empty `result.data` yields `[]`,
which the empty fold also yields). -/
def getRecommendedRecipes (paths : List RecipePathVertex) (count : Nat) :
    List RecommendedRecipe :=
  paths.foldl (getRecommendedRecipesStep count) []

/-- Loop invariant of `getRecommendedRecipes`: after processing a prefix,
at most `n` entries exist, their ids are pairwise distinct, each entry's
count equals the number of processed occurrences of its id, and an id
occurring in the processed prefix is missing from the entries only when
the entry list is full. -/
def recoInv (n : Nat) (processed : List RecipePathVertex)
    (recipes : List RecommendedRecipe) : Prop :=
  recipes.length ≤ n ∧
  (recipes.map (fun r => r.id)).Nodup ∧
  (∀ r ∈ recipes,
    r.recommendedUserCount = processed.countP (fun p => p.name == r.id)) ∧
  (∀ p ∈ processed, (∀ r ∈ recipes, r.id ≠ p.name) → recipes.length = n)

/-- The spec's example path data: five distinct qualifying recipes, then a
sixth traversal occurrence revisiting the first recipe. -/
def recoExamplePaths : List RecipePathVertex :=
  [⟨"a", "ta"⟩, ⟨"b", "tb"⟩, ⟨"c", "tc"⟩, ⟨"d", "td"⟩, ⟨"e", "te"⟩, ⟨"a", "ta"⟩]

/-- The `status` object of a Gremlin-server response body; `code` is
`none` when the field is absent. -/
structure ResponseStatus where
  code : Option Int
deriving DecidableEq

/-- A Gremlin-server response body as far as `graphExists` reads it. -/
structure GremlinResponseBody where
  status : Option ResponseStatus
deriving DecidableEq

/-- Source `JanusGraphClient.graphExists`: the truthiness of
`responseBody.status && responseBody.status.code &&
responseBody.status.code == 200` on the resolved path, and `false` via
the `.catch` on any transport failure or exception. -/
def graphExists (outcome : Except Unit GremlinResponseBody) : Bool :=
  match outcome with
  | .error _ => false
  | .ok body =>
    match body.status with
    | none => false
    | some st =>
      match st.code with
      | none => false
      | some c => if c = 0 then false else c == 200

/-- The `result` object of a Gremlin query response; `data` is `none`
when absent. -/
structure QueryResult (α : Type) where
  data : Option (List α)
deriving DecidableEq

/-- A Gremlin query response as far as the result handlers read it. -/
structure QueryResponse (α : Type) where
  result : Option (QueryResult α)
deriving DecidableEq

/-- The continuation of `JanusGraphRecipeStore.findVertex` on a resolved
(status-200) response: `data[0]` if rows came back, else `null`. -/
def findVertexResult {α : Type} (resp : QueryResponse α) : Option α :=
  match resp.result with
  | some r =>
    match r.data with
    | some (x :: _) => some x
    | _ => none
  | none => none

/-- The continuation of `JanusGraphClient.createVertex` on a resolved
response: the created-element echo `data[0]` if present, else `null`. -/
def createVertexResult {α : Type} (resp : QueryResponse α) : Option α :=
  match resp.result with
  | some r =>
    match r.data with
    | some (x :: _) => some x
    | _ => none
  | none => none

/-- The continuation of `JanusGraphClient.createEdge` on a resolved
response: the created-element echo `data[0]` if present, else `null`. -/
def createEdgeResult {α : Type} (resp : QueryResponse α) : Option α :=
  match resp.result with
  | some r =>
    match r.data with
    | some (x :: _) => some x
    | _ => none
  | none => none

/-- A status-200 response carrying no rows: `result` absent, `data`
absent, or `data` empty. -/
def noRowsResponse {α : Type} (resp : QueryResponse α) : Prop :=
  resp.result = none ∨ ∃ r, resp.result = some r ∧ (r.data = none ∨ r.data = some [])

/-- A stored vertex: id, label, and property map.  The client's string
escaping composed with the server's Groovy string-literal parsing is the
identity on the happy path, so the stored property values are the values
the store supplied. -/
structure Vertex where
  id : Nat
  label : String
  props : List (String × String)
deriving DecidableEq

/-- A stored edge.  `count` is the only property the store ever writes on
an edge; `none` models an unset `count` property. -/
structure Edge where
  id : Nat
  label : String
  outV : Nat
  inV : Nat
  count : Option Nat
deriving DecidableEq

/-- The JanusGraph server state the store's traversals run against.
Fresh element ids are allocated from `nextId`. -/
structure GraphState where
  vertices : List Vertex
  edges : List Edge
  nextId : Nat
deriving DecidableEq

/-- Server evaluation of the vertex lookup traversal
`g.V().hasLabel(label).has(key, value)`: the stored vertices with that
label whose `key` property equals `value`, in storage order. -/
def lookupVertices (g : GraphState) (lab key val : String) : List Vertex :=
  g.vertices.filter (fun v => v.label == lab && v.props.lookup key == some val)

/-- Source `JanusGraphClient.createVertex` at the graph level: `graph.addVertex`
allocates a fresh id, stores the label and properties, and the response
echoes the created vertex. -/
def createVertex (g : GraphState) (lab : String) (props : List (String × String)) :
    GraphState × Vertex :=
  let v : Vertex := ⟨g.nextId, lab, props⟩
  ({g with vertices := g.vertices ++ [v], nextId := g.nextId + 1}, v)

/-- Source `JanusGraphRecipeStore.addVertexIfNotExists`: look up by
`(label, uniquePropertyName = value)` with the value read off the vertex
being added (JavaScript interpolates `undefined` when the property is
missing); return `data[0]` if rows came back, otherwise delegate to
`createVertex`. -/
def addVertexIfNotExists (g : GraphState) (lab : String)
    (props : List (String × String)) (uniquePropertyName : String) :
    GraphState × Vertex :=
  let propertyValue := (props.lookup uniquePropertyName).getD "undefined"
  match lookupVertices g lab uniquePropertyName propertyValue with
  | v :: _ => (g, v)
  | [] => createVertex g lab props

/-- The edges from vertex `a` to vertex `b`, in storage order. -/
def edgeFilter (es : List Edge) (a b : Nat) : List Edge :=
  es.filter (fun e => e.outV == a && e.inV == b)

/-- Server evaluation of the edge-existence traversal
`g.V(outV).outE().inV().hasId(inV).path()`: one path per edge from `outV`
to `inV` — any label — and `path.objects[1]` is that edge. -/
def lookupEdges (g : GraphState) (a b : Nat) : List Edge :=
  edgeFilter g.edges a b

/-- Source `JanusGraphClient.createEdge` at the graph level: `outV.addEdge`
allocates a fresh id and stores the edge with the given properties (an
absent properties object stores no `count`); the response echoes the
created edge. -/
def createEdge (g : GraphState) (lab : String) (a b : Nat) (count : Option Nat) :
    GraphState × Edge :=
  let e : Edge := ⟨g.nextId, lab, a, b, count⟩
  ({g with edges := g.edges ++ [e], nextId := g.nextId + 1}, e)

/-- Source `JanusGraphClient.updateEdge` restricted to the one property the
store ever writes back: set `count` on the edge with id `eid`. -/
def updateEdge (g : GraphState) (eid : Nat) (c : Nat) : GraphState :=
  {g with
    edges := g.edges.map (fun e => if e.id == eid then {e with count := some c} else e)}

/-- The edge argument the store builds before calling `addUpdateEdge` or
`addEdgeIfNotExists`. -/
structure EdgeSpec where
  label : String
  outV : Nat
  inV : Nat
  count : Option Nat
deriving DecidableEq

/-- Source `JanusGraphRecipeStore.addUpdateEdge`: look up any edge between the
ordered pair; if one is found read its `count` (default 0) and write back
`count + 1`; otherwise create the edge with the given properties. -/
def addUpdateEdge (g : GraphState) (edge : EdgeSpec) : GraphState :=
  match lookupEdges g edge.outV edge.inV with
  | [] => (createEdge g edge.label edge.outV edge.inV edge.count).1
  | found :: _ => updateEdge g found.id (found.count.getD 0 + 1)

/-- Source `JanusGraphRecipeStore.addEdgeIfNotExists`: create the edge only when
no edge between the ordered pair exists. -/
def addEdgeIfNotExists (g : GraphState) (edge : EdgeSpec) : GraphState :=
  match lookupEdges g edge.outV edge.inV with
  | [] => (createEdge g edge.label edge.outV edge.inV edge.count).1
  | _ :: _ => g

/-- Iterate: `N` sequential calls of `addUpdateEdge` with the same edge argument. -/
def iterAddUpdateEdge (g : GraphState) (edge : EdgeSpec) : Nat → GraphState
  | 0 => g
  | k + 1 => addUpdateEdge (iterAddUpdateEdge g edge k) edge

/-- Source `JanusGraphRecipeStore.recordRecipeRequestForUser`: a weighted
`selects` edge user→recipe; then, when an ingredient/cuisine vertex was
given, a weighted `selects` edge origin→recipe and an existence-only
`has` edge recipe→origin. -/
def recordRecipeRequestForUser (g : GraphState) (recipeV : Nat)
    (ingredientCuisineV : Option Nat) (userV : Nat) : GraphState :=
  let g1 := addUpdateEdge g ⟨"selects", userV, recipeV, some 1⟩
  match ingredientCuisineV with
  | none => g1
  | some icv =>
    let g2 := addUpdateEdge g1 ⟨"selects", icv, recipeV, some 1⟩
    addEdgeIfNotExists g2 ⟨"has", recipeV, icv, none⟩

/-- Server evaluation of the favorite-recipes traversal
`g.V().hasLabel("person").has("name", name).outE().order().by("count", decr)
.inV().hasLabel("recipe").limit(count)`: all out-edges of the matching
person vertices sorted by `count` descending (ties in either order), their
destination vertices, filtered to label `recipe`, truncated to `count`. -/
def favoriteQueryRows (g : GraphState) (personName : String) (n : Nat) :
    List Vertex :=
  let persons := g.vertices.filter
    (fun v => v.label == "person" && v.props.lookup "name" == some personName)
  let outEs := persons.flatMap (fun v => g.edges.filter (fun e => e.outV == v.id))
  let sorted := List.insertionSort
    (fun e1 e2 : Edge => e2.count.getD 0 ≤ e1.count.getD 0) outEs
  let dests := sorted.filterMap (fun e => g.vertices.find? (fun v => v.id == e.inV))
  (dests.filter (fun v => v.label == "recipe")).take n

/-- One entry of the list `findFavoriteRecipesForUser` resolves with. -/
structure FavoriteRecipe where
  id : String
  title : String
deriving DecidableEq

/-- Source `JanusGraphRecipeStore.findFavoriteRecipesForUser`: run the traversal
and, when rows came back, map each recipe vertex to
`{id: properties.name[0].value, title: properties.title[0].value}`;
otherwise resolve with the empty list. -/
def findFavoriteRecipesForUser (g : GraphState) (personName : String) (n : Nat) :
    List FavoriteRecipe :=
  let rows := favoriteQueryRows g personName n
  if rows.isEmpty then []
  else rows.map (fun v =>
    ⟨(v.props.lookup "name").getD "", (v.props.lookup "title").getD ""⟩)

/-- C2: for every pair of ingredient-list strings naming the same multiset
of ingredients — differing only in element order, letter casing, or
per-element surrounding whitespace, i.e. whose canonical element lists are
permutations — `getUniqueIngredientsName` produces the identical canonical
string (lower-cased, comma-split, trimmed, lexicographically sorted,
comma-rejoined). -/
theorem getUniqueIngredientsName_perm_invariant (s1 s2 : List Char)
    (h : List.Perm (ingredientElems s1) (ingredientElems s2)) :
    getUniqueIngredientsName s1 = getUniqueIngredientsName s2 := by
  have hp : List.Perm
      (List.insertionSort (fun a b => lexLe a b = true) (ingredientElems s1))
      (List.insertionSort (fun a b => lexLe a b = true) (ingredientElems s2)) :=
    (List.perm_insertionSort _ _).trans (h.trans (List.perm_insertionSort _ _).symm)
  have he := List.eq_of_perm_of_sorted hp
    (List.sorted_insertionSort _ _) (List.sorted_insertionSort _ _)
  simpa [getUniqueIngredientsName, ingredientElems] using congrArg joinComma he

/-- Witness for C2 at the spec's example inputs. -/
theorem getUniqueIngredientsName_perm_invariant_witness :
    getUniqueIngredientsName ("Tomato, Onion".data)
      = getUniqueIngredientsName ("onion,tomato".data) ∧
    getUniqueIngredientsName ("onion,tomato".data) = ("onion,tomato".data) :=
  ⟨getUniqueIngredientsName_perm_invariant _ _ (by decide), by decide⟩

theorem replaceAll_of_not_occursIn (pat rep : List Char) :
    ∀ s : List Char, occursIn pat s = false → replaceAll pat rep s = s
  | [], _ => by simp [replaceAll]
  | c :: rest, h => by
    rw [occursIn, Bool.or_eq_false_iff] at h
    rw [replaceAll, dif_neg (fun hc => by simp [h.1] at hc)]
    exact congrArg (c :: ·) (replaceAll_of_not_occursIn pat rep rest h.2)

theorem replaceAll_single (a : Char) (rep : List Char) :
    ∀ s : List Char, replaceAll [a] rep s = charSubst (fun c => if c = a then rep else [c]) s
  | [] => by simp [replaceAll, charSubst]
  | c :: rest => by
    by_cases h : a = c
    · subst h
      rw [replaceAll, dif_pos (by simp [leadsWith])]
      simp [charSubst, List.drop, replaceAll_single a rep rest]
    · rw [replaceAll, dif_neg (by simp [leadsWith, h])]
      simp [charSubst, Ne.symm h, replaceAll_single a rep rest]

theorem charSubst_append (f : Char → List Char) :
    ∀ s t : List Char, charSubst f (s ++ t) = charSubst f s ++ charSubst f t
  | [], _ => rfl
  | c :: rest, t => by
    simp [charSubst, charSubst_append f rest t]

theorem charSubst_charSubst (f g : Char → List Char) :
    ∀ s : List Char, charSubst f (charSubst g s) = charSubst (fun c => charSubst f (g c)) s
  | [] => rfl
  | c :: rest => by
    simp [charSubst, charSubst_append, charSubst_charSubst f g rest]

/-- C3: `escapeStringValue` applies its three substitutions in order;
on any string with no pre-escaped quote (no backslash-quote sequence) the
first substitution finds nothing and the result is exactly the input with
each double quote replaced by a backslash-escaped double quote and each
dollar sign replaced by a backslash-escaped dollar sign. -/
theorem escapeStringValue_noPreEscaped (s : List Char)
    (h : occursIn ['\\', '"'] s = false) :
    escapeStringValue s =
      charSubst
        (fun c => if c = '"' then ['\\', '"'] else if c = '$' then ['\\', '$'] else [c]) s := by
  unfold escapeStringValue
  rw [replaceAll_of_not_occursIn _ _ s h, replaceAll_single, replaceAll_single,
    charSubst_charSubst]
  have hf : (fun c => charSubst (fun d => if d = '$' then ['\\', '$'] else [d])
        (if c = '"' then ['\\', '"'] else [c]))
      = (fun c => if c = '"' then ['\\', '"'] else if c = '$' then ['\\', '$'] else [c]) := by
    funext c
    by_cases h1 : c = '"'
    · simp [h1, charSubst]
    · by_cases h2 : c = '$' <;> simp [h1, h2, charSubst]
  rw [hf]

/-- Witness for C3 on a concrete string holding quotes and a dollar sign
but no pre-escaped quote. -/
theorem escapeStringValue_noPreEscaped_witness :
    occursIn ['\\', '"'] ("say \"hi\" for $5".data) = false ∧
    escapeStringValue ("say \"hi\" for $5".data) =
      charSubst
        (fun c => if c = '"' then ['\\', '"'] else if c = '$' then ['\\', '$'] else [c])
        ("say \"hi\" for $5".data) :=
  ⟨by decide, escapeStringValue_noPreEscaped _ (by decide)⟩

theorem recoUpd_id (v : RecipePathVertex) (r : RecommendedRecipe) :
    (if r.id == v.name then
      {r with recommendedUserCount := r.recommendedUserCount + 1} else r).id = r.id := by
  by_cases h : r.id = v.name <;> simp [h]

theorem recoUpd_count (v : RecipePathVertex) (r : RecommendedRecipe) :
    (if r.id == v.name then
        {r with recommendedUserCount := r.recommendedUserCount + 1}
      else r).recommendedUserCount =
      if r.id = v.name then r.recommendedUserCount + 1 else r.recommendedUserCount := by
  by_cases h : r.id = v.name <;> simp [h]

theorem countP_singleton_eq (v : RecipePathVertex) (s : String) :
    List.countP (fun p => p.name == s) [v] = if v.name = s then 1 else 0 := by
  by_cases h : v.name = s <;> simp [List.countP_cons, h]

theorem recoInv_step {n : Nat} {done : List RecipePathVertex}
    {acc : List RecommendedRecipe} (h : recoInv n done acc)
    (v : RecipePathVertex) :
    recoInv n (done ++ [v]) (getRecommendedRecipesStep n acc v) := by
  obtain ⟨hlen, hnodup, hcount, hfull⟩ := h
  unfold getRecommendedRecipesStep
  by_cases hmem : acc.any (fun r => r.id == v.name) = true
  · rw [if_pos hmem]
    rw [List.any_eq_true] at hmem
    obtain ⟨r0, hr0mem, hr0⟩ := hmem
    rw [beq_iff_eq] at hr0
    have hids : ((acc.map (fun r =>
        if r.id == v.name then
          {r with recommendedUserCount := r.recommendedUserCount + 1}
        else r)).map (fun r => r.id)) = acc.map (fun r => r.id) := by
      rw [List.map_map]
      apply List.map_congr_left
      intro r _
      exact recoUpd_id v r
    refine ⟨by simpa using hlen, by rw [hids]; exact hnodup, ?_, ?_⟩
    · intro r hr
      rw [List.mem_map] at hr
      obtain ⟨r1, hr1mem, hr1⟩ := hr
      subst hr1
      simp only [recoUpd_id, recoUpd_count]
      rw [List.countP_append, countP_singleton_eq, hcount r1 hr1mem]
      by_cases hid : r1.id = v.name
      · rw [if_pos hid, if_pos hid.symm]
      · rw [if_neg hid, if_neg (fun he => hid he.symm), Nat.add_zero]
    · intro p hp hnone
      rw [List.mem_append] at hp
      rcases hp with hp | hp
      · have hacc : ∀ r ∈ acc, r.id ≠ p.name := by
          intro r hr
          have := hnone _ (List.mem_map_of_mem _ hr)
          rwa [recoUpd_id] at this
        rw [List.length_map]
        exact hfull p hp hacc
      · rw [List.mem_singleton] at hp
        subst hp
        exfalso
        have := hnone _ (List.mem_map_of_mem _ hr0mem)
        rw [recoUpd_id] at this
        exact this hr0
  · rw [if_neg hmem]
    have hnotin : ∀ r ∈ acc, ¬(r.id = v.name) := by
      intro r hr he
      exact hmem (List.any_eq_true.mpr ⟨r, hr, beq_iff_eq.mpr he⟩)
    by_cases hcap : n ≤ acc.length
    · rw [if_pos hcap]
      refine ⟨hlen, hnodup, ?_, ?_⟩
      · intro r hr
        rw [List.countP_append, countP_singleton_eq,
          if_neg (fun he => hnotin r hr he.symm), Nat.add_zero]
        exact hcount r hr
      · intro p hp _hnone
        exact le_antisymm hlen hcap
    · rw [if_neg hcap]
      rw [not_le] at hcap
      refine ⟨?_, ?_, ?_, ?_⟩
      · rw [List.length_append, List.length_singleton]
        exact hcap
      · rw [List.map_append, List.nodup_append]
        refine ⟨hnodup, List.nodup_singleton _, ?_⟩
        intro a ha hb
        rw [List.mem_map] at ha
        obtain ⟨r, hr, hrid⟩ := ha
        rw [List.map_cons, List.map_nil, List.mem_singleton] at hb
        exact hnotin r hr (hrid.trans hb)
      · intro r hr
        rw [List.mem_append] at hr
        rcases hr with hr | hr
        · rw [List.countP_append, countP_singleton_eq,
            if_neg (fun he => hnotin r hr he.symm), Nat.add_zero]
          exact hcount r hr
        · rw [List.mem_singleton] at hr
          subst hr
          simp only
          rw [List.countP_append, countP_singleton_eq, if_pos rfl]
          have h0 : List.countP (fun p => p.name == v.name) done = 0 := by
            by_contra hne
            have hpos : 0 < List.countP (fun p => p.name == v.name) done :=
              Nat.pos_of_ne_zero hne
            rw [List.countP_pos_iff] at hpos
            obtain ⟨q, hq, hqname⟩ := hpos
            rw [beq_iff_eq] at hqname
            have : acc.length = n := by
              apply hfull q hq
              intro r hr he
              exact hnotin r hr (he.trans hqname)
            omega
          rw [h0]
      · intro p hp hnone
        exfalso
        rw [List.mem_append] at hp
        rcases hp with hp | hp
        · have : acc.length = n := by
            apply hfull p hp
            intro r hr
            exact hnone r (List.mem_append_left _ hr)
          omega
        · rw [List.mem_singleton] at hp
          subst hp
          exact hnone ⟨p.name, p.title, 1⟩
            (List.mem_append_right _ (List.mem_singleton_self _)) rfl

theorem recoInv_foldl (n : Nat) :
    ∀ (rest done : List RecipePathVertex) (acc : List RecommendedRecipe),
      recoInv n done acc →
      recoInv n (done ++ rest) (rest.foldl (getRecommendedRecipesStep n) acc)
  | [], done, acc, h => by simpa using h
  | v :: rest, done, acc, h => by
    have h3 := recoInv_foldl n rest (done ++ [v]) _ (recoInv_step h v)
    simpa [List.append_assoc] using h3

/-- C1: for every path sequence and limit `n`, `getRecommendedRecipes`
emits at most `n` entries with pairwise distinct recipe ids; every emitted
entry's `recommendedUserCount` equals the total number of occurrences of
its recipe id in the path data (so occurrences of an already-emitted
recipe are counted even past the limit); and a recipe occurring in the
path data is absent from the result only when `n` distinct recipes were
emitted (so the result is smaller than `n` only if the path data yields
fewer distinct recipes). -/
theorem getRecommendedRecipes_spec (paths : List RecipePathVertex) (n : Nat) :
    (getRecommendedRecipes paths n).length ≤ n ∧
    ((getRecommendedRecipes paths n).map (fun r => r.id)).Nodup ∧
    (∀ r ∈ getRecommendedRecipes paths n,
      r.recommendedUserCount = paths.countP (fun p => p.name == r.id)) ∧
    (∀ p ∈ paths, (∀ r ∈ getRecommendedRecipes paths n, r.id ≠ p.name) →
      (getRecommendedRecipes paths n).length = n) := by
  have h0 : recoInv n [] [] := ⟨Nat.zero_le n, List.nodup_nil, by simp, by simp⟩
  have h := recoInv_foldl n paths [] [] h0
  simpa [recoInv, getRecommendedRecipes] using h

/-- Witness for C1: with limit 2 over the example paths the result keeps
exactly 2 distinct recipes and the revisited recipe's
`recommendedUserCount` becomes 2. -/
theorem getRecommendedRecipes_spec_witness :
    (∀ r ∈ getRecommendedRecipes recoExamplePaths 2,
      r.recommendedUserCount = recoExamplePaths.countP (fun p => p.name == r.id)) ∧
    getRecommendedRecipes recoExamplePaths 2 =
      [⟨"a", "ta", 2⟩, ⟨"b", "tb", 1⟩] :=
  ⟨(getRecommendedRecipes_spec recoExamplePaths 2).2.2.1, by decide⟩

/-- C4: `graphExists` resolves truthily exactly when the response body
carries a status object whose code is exactly 200; every transport
failure, exception, absent status/code or non-200 code yields `false`
(the function is total on outcomes: it never rejects). -/
theorem graphExists_iff_code200 (outcome : Except Unit GremlinResponseBody) :
    graphExists outcome = true ↔
      ∃ body, outcome = Except.ok body ∧
        ∃ st, body.status = some st ∧ st.code = some 200 := by
  cases outcome with
  | error e => simp [graphExists]
  | ok body =>
    obtain ⟨st?⟩ := body
    cases st? with
    | none => simp [graphExists]
    | some st =>
      obtain ⟨c?⟩ := st
      cases c? with
      | none => simp [graphExists]
      | some c =>
        constructor
        · intro h
          have hc200 : c = 200 := by
            by_cases hc : c = 0
            · subst hc
              simp [graphExists] at h
            · simp only [graphExists, if_neg hc, beq_iff_eq] at h
              exact h
          exact ⟨⟨some ⟨some c⟩⟩, rfl, ⟨some c⟩, rfl, by rw [hc200]⟩
        · rintro ⟨b, hb, st2, hst, hcode⟩
          cases hb
          cases hst
          cases hcode
          simp [graphExists]

/-- C5: an empty or absent `result.data` in a status-200 response is
never an error: `findVertex` resolves to the not-found sentinel `null`,
and `createVertex` and `createEdge` resolve to the same sentinel when the
created-element echo is missing, rather than rejecting. -/
theorem emptyData_resolves_to_sentinel {α : Type} (r1 r2 r3 : QueryResponse α)
    (h1 : noRowsResponse r1) (h2 : noRowsResponse r2) (h3 : noRowsResponse r3) :
    findVertexResult r1 = none ∧ createVertexResult r2 = none ∧
      createEdgeResult r3 = none := by
  refine ⟨?_, ?_, ?_⟩
  · rcases h1 with h | ⟨r, hr, h | h⟩ <;> simp [findVertexResult, *]
  · rcases h2 with h | ⟨r, hr, h | h⟩ <;> simp [createVertexResult, *]
  · rcases h3 with h | ⟨r, hr, h | h⟩ <;> simp [createEdgeResult, *]

/-- Witness for C5 on the three concrete no-row response shapes. -/
theorem emptyData_resolves_to_sentinel_witness :
    findVertexResult (α := Nat) ⟨none⟩ = none ∧
      createVertexResult (α := Nat) ⟨some ⟨none⟩⟩ = none ∧
      createEdgeResult (α := Nat) ⟨some ⟨some []⟩⟩ = none :=
  emptyData_resolves_to_sentinel ⟨none⟩ ⟨some ⟨none⟩⟩ ⟨some ⟨some []⟩⟩
    (Or.inl rfl) (Or.inr ⟨⟨none⟩, rfl, Or.inl rfl⟩)
    (Or.inr ⟨⟨some []⟩, rfl, Or.inr rfl⟩)

/-- C6: `addVertexIfNotExists` is idempotent per `(label, uniqueKey=value)`
pair: when a stored vertex already matches, the call returns the first
match and leaves the graph unchanged (no creation call); only when the
lookup returns no rows does it delegate to creation, and upserting the
same pair twice returns the very same vertex both times with no second
creation. -/
theorem addVertexIfNotExists_upsert (g : GraphState) (lab : String)
    (props : List (String × String)) (key val : String)
    (hkey : props.lookup key = some val) :
    (∀ v vs, lookupVertices g lab key val = v :: vs →
      addVertexIfNotExists g lab props key = (g, v)) ∧
    (lookupVertices g lab key val = [] →
      addVertexIfNotExists g lab props key =
        ({g with
            vertices := g.vertices ++ [⟨g.nextId, lab, props⟩],
            nextId := g.nextId + 1},
          ⟨g.nextId, lab, props⟩) ∧
      addVertexIfNotExists
          (addVertexIfNotExists g lab props key).1 lab props key =
        ((addVertexIfNotExists g lab props key).1, ⟨g.nextId, lab, props⟩)) := by
  constructor
  · intro v vs hfound
    simp only [addVertexIfNotExists, hkey, Option.getD_some, hfound]
  · intro hnone
    have hfirst : addVertexIfNotExists g lab props key =
        ({g with
            vertices := g.vertices ++ [⟨g.nextId, lab, props⟩],
            nextId := g.nextId + 1},
          ⟨g.nextId, lab, props⟩) := by
      simp only [addVertexIfNotExists, hkey, Option.getD_some, hnone, createVertex]
    refine ⟨hfirst, ?_⟩
    rw [hfirst]
    have hlook2 : lookupVertices
        ({g with
          vertices := g.vertices ++ [⟨g.nextId, lab, props⟩],
          nextId := g.nextId + 1} : GraphState) lab key val =
        [⟨g.nextId, lab, props⟩] := by
      unfold lookupVertices at hnone ⊢
      simp only [List.filter_append, hnone, List.nil_append]
      simp [hkey]
    simp only [addVertexIfNotExists, hkey, Option.getD_some, hlook2]

/-- Witness for C6: upserting `(person, name=u1)` twice into the empty
graph creates once and returns the identical vertex both times. -/
theorem addVertexIfNotExists_upsert_witness :
    addVertexIfNotExists ⟨[], [], 0⟩ "person" [("name", "u1")] "name" =
      (⟨[⟨0, "person", [("name", "u1")]⟩], [], 1⟩, ⟨0, "person", [("name", "u1")]⟩) ∧
    addVertexIfNotExists ⟨[⟨0, "person", [("name", "u1")]⟩], [], 1⟩
        "person" [("name", "u1")] "name" =
      (⟨[⟨0, "person", [("name", "u1")]⟩], [], 1⟩, ⟨0, "person", [("name", "u1")]⟩) := by
  have h := (addVertexIfNotExists_upsert ⟨[], [], 0⟩ "person"
    [("name", "u1")] "name" "u1" rfl).2 (by decide)
  exact ⟨h.1, by rw [h.1] at h; exact h.2⟩

theorem edgeFilter_append (es1 es2 : List Edge) (a b : Nat) :
    edgeFilter (es1 ++ es2) a b = edgeFilter es1 a b ++ edgeFilter es2 a b :=
  List.filter_append _ _

theorem edgeFilter_singleton_pos (e : Edge) (a b : Nat)
    (h1 : e.outV = a) (h2 : e.inV = b) : edgeFilter [e] a b = [e] := by
  simp [edgeFilter, List.filter, h1, h2]

theorem edgeFilter_singleton_neg (e : Edge) (a b : Nat)
    (h : ¬(e.outV = a ∧ e.inV = b)) : edgeFilter [e] a b = [] := by
  have hb : (e.outV == a && e.inV == b) = false := by
    rcases Decidable.not_and_iff_or_not.mp h with h1 | h1 <;> simp [h1]
  simp [edgeFilter, List.filter, hb]

theorem updateEdge_map_id (es : List Edge) (eid : Nat) (c : Nat)
    (h : ∀ e ∈ es, e.id ≠ eid) :
    es.map (fun e => if e.id == eid then {e with count := some c} else e) = es := by
  rw [List.map_congr_left (fun e he => if_neg (by simpa using h e he))]
  exact List.map_id _

theorem iterAddUpdateEdge_state (g : GraphState) (s : EdgeSpec)
    (hnone : lookupEdges g s.outV s.inV = [])
    (hb : ∀ e ∈ g.edges, e.id < g.nextId) (hc : s.count = some 1) :
    ∀ N : Nat, iterAddUpdateEdge g s (N + 1) =
      ⟨g.vertices,
        g.edges ++ [⟨g.nextId, s.label, s.outV, s.inV, some (N + 1)⟩],
        g.nextId + 1⟩
  | 0 => by
    simp only [iterAddUpdateEdge, addUpdateEdge, hnone, createEdge]
    simp [hc]
  | N + 1 => by
    rw [iterAddUpdateEdge, iterAddUpdateEdge_state g s hnone hb hc N]
    have hl : lookupEdges
        (⟨g.vertices,
          g.edges ++ [⟨g.nextId, s.label, s.outV, s.inV, some (N + 1)⟩],
          g.nextId + 1⟩ : GraphState) s.outV s.inV =
        [⟨g.nextId, s.label, s.outV, s.inV, some (N + 1)⟩] := by
      unfold lookupEdges at hnone ⊢
      rw [edgeFilter_append, hnone, List.nil_append,
        edgeFilter_singleton_pos _ _ _ rfl rfl]
    simp only [addUpdateEdge, hl, updateEdge]
    rw [List.map_append, updateEdge_map_id _ _ _ (fun e he => Nat.ne_of_lt (hb e he))]
    simp

/-- C7: when the lookup path between the ordered pair returns no rows,
`addUpdateEdge` creates the edge with the supplied properties (the store
always supplies `count = 1`); when an edge is found it writes back the
found edge's current `count` (default 0) plus one; hence recording the
same edge `N + 1` sequential times from a clean pair yields
`count = N + 1`. -/
theorem addUpdateEdge_spec (g : GraphState) (s : EdgeSpec) :
    (lookupEdges g s.outV s.inV = [] →
      addUpdateEdge g s =
        {g with
          edges := g.edges ++ [⟨g.nextId, s.label, s.outV, s.inV, s.count⟩],
          nextId := g.nextId + 1}) ∧
    (∀ found rest, lookupEdges g s.outV s.inV = found :: rest →
      addUpdateEdge g s = updateEdge g found.id (found.count.getD 0 + 1)) ∧
    (lookupEdges g s.outV s.inV = [] → (∀ e ∈ g.edges, e.id < g.nextId) →
      s.count = some 1 →
      ∀ N : Nat, edgeFilter (iterAddUpdateEdge g s (N + 1)).edges s.outV s.inV =
        [⟨g.nextId, s.label, s.outV, s.inV, some (N + 1)⟩]) := by
  refine ⟨?_, ?_, ?_⟩
  · intro h
    simp only [addUpdateEdge, h, createEdge]
  · intro found rest h
    simp only [addUpdateEdge, h]
  · intro h hb hc N
    rw [iterAddUpdateEdge_state g s h hb hc N]
    unfold lookupEdges at h
    simp only
    rw [edgeFilter_append, h, List.nil_append,
      edgeFilter_singleton_pos _ _ _ rfl rfl]

/-- Witness for C7: three sequential `addUpdateEdge` calls for the pair
`(0, 1)` on a graph with no edge between them leave a single edge with
`count = 3`. -/
theorem addUpdateEdge_spec_witness :
    edgeFilter
      (iterAddUpdateEdge
        ⟨[⟨0, "person", []⟩, ⟨1, "recipe", []⟩], [], 2⟩
        ⟨"selects", 0, 1, some 1⟩ 3).edges 0 1 =
      [⟨2, "selects", 0, 1, some 3⟩] :=
  (addUpdateEdge_spec ⟨[⟨0, "person", []⟩, ⟨1, "recipe", []⟩], [], 2⟩
    ⟨"selects", 0, 1, some 1⟩).2.2 rfl (by decide) rfl 2

theorem edgeFilter_length_updateMap (eid c a b : Nat) : ∀ es : List Edge,
    (edgeFilter (es.map (fun e => if e.id == eid then {e with count := some c} else e))
      a b).length = (edgeFilter es a b).length
  | [] => rfl
  | e :: es => by
    have hpair : ((if e.id == eid then {e with count := some c} else e).outV == a
        && (if e.id == eid then {e with count := some c} else e).inV == b)
        = (e.outV == a && e.inV == b) := by
      by_cases h : e.id == eid <;> simp [h]
    simp only [List.map_cons, edgeFilter, List.filter_cons, hpair]
    by_cases hp : (e.outV == a && e.inV == b) = true <;>
      simpa [hp] using edgeFilter_length_updateMap eid c a b es

/-- C10: the edge-existence lookup shared by `addUpdateEdge` and
`addEdgeIfNotExists` selects by the ordered endpoint pair only and never
constrains the edge label: whatever edge the lookup finds — its label may
differ from the requested one — `addUpdateEdge` increments that edge's
count and `addEdgeIfNotExists` does nothing, neither creating an edge;
and both helpers preserve the invariant that each ordered pair carries at
most one edge of any label. -/
theorem edgeLookup_label_blind (g : GraphState) (s : EdgeSpec) :
    (∀ found rest, lookupEdges g s.outV s.inV = found :: rest →
      addUpdateEdge g s = updateEdge g found.id (found.count.getD 0 + 1) ∧
      addEdgeIfNotExists g s = g ∧
      (addUpdateEdge g s).edges.length = g.edges.length) ∧
    ((∀ a b, (edgeFilter g.edges a b).length ≤ 1) →
      ∀ a b, (edgeFilter (addUpdateEdge g s).edges a b).length ≤ 1 ∧
        (edgeFilter (addEdgeIfNotExists g s).edges a b).length ≤ 1) := by
  constructor
  · intro found rest h
    refine ⟨by simp only [addUpdateEdge, h], by simp only [addEdgeIfNotExists, h], ?_⟩
    simp only [addUpdateEdge, h, updateEdge, List.length_map]
  · intro hone a b
    cases hl : lookupEdges g s.outV s.inV with
    | nil =>
      have hcreate : (edgeFilter
          (g.edges ++ [⟨g.nextId, s.label, s.outV, s.inV, s.count⟩]) a b).length ≤ 1 := by
        rw [edgeFilter_append, List.length_append]
        by_cases hab : s.outV = a ∧ s.inV = b
        · obtain ⟨ha, hb⟩ := hab
          subst ha
          subst hb
          unfold lookupEdges at hl
          rw [hl, edgeFilter_singleton_pos _ _ _ rfl rfl]
          simp
        · rw [edgeFilter_singleton_neg _ _ _ hab]
          simpa using hone a b
      constructor
      · simpa only [addUpdateEdge, hl, createEdge] using hcreate
      · simpa only [addEdgeIfNotExists, hl, createEdge] using hcreate
    | cons found rest =>
      constructor
      · simp only [addUpdateEdge, hl, updateEdge]
        rw [edgeFilter_length_updateMap]
        exact hone a b
      · simpa only [addEdgeIfNotExists, hl] using hone a b

/-- Witness for C10: a lone `has` edge between the pair `(0, 1)` is what
an `addUpdateEdge` requesting label `selects` finds; it updates that
edge's count to 1 and creates nothing. -/
theorem edgeLookup_label_blind_witness :
    addUpdateEdge ⟨[], [⟨7, "has", 0, 1, none⟩], 8⟩ ⟨"selects", 0, 1, some 1⟩ =
      updateEdge ⟨[], [⟨7, "has", 0, 1, none⟩], 8⟩ 7 1 ∧
    addEdgeIfNotExists ⟨[], [⟨7, "has", 0, 1, none⟩], 8⟩ ⟨"selects", 0, 1, some 1⟩ =
      ⟨[], [⟨7, "has", 0, 1, none⟩], 8⟩ := by
  have h := (edgeLookup_label_blind ⟨[], [⟨7, "has", 0, 1, none⟩], 8⟩
    ⟨"selects", 0, 1, some 1⟩).1 ⟨7, "has", 0, 1, none⟩ [] (by decide)
  exact ⟨h.1, h.2.1⟩

theorem edgeFilter_cons_pos (e : Edge) (es : List Edge) (a b : Nat)
    (h1 : e.outV = a) (h2 : e.inV = b) :
    edgeFilter (e :: es) a b = e :: edgeFilter es a b := by
  simp [edgeFilter, List.filter_cons, h1, h2]

theorem edgeFilter_cons_neg (e : Edge) (es : List Edge) (a b : Nat)
    (h : ¬(e.outV = a ∧ e.inV = b)) :
    edgeFilter (e :: es) a b = edgeFilter es a b := by
  have hb : (e.outV == a && e.inV == b) = false := by
    rcases Decidable.not_and_iff_or_not.mp h with h1 | h1 <;> simp [h1]
  simp [edgeFilter, List.filter_cons, hb]

theorem addUpdateEdge_create (g : GraphState) (s : EdgeSpec)
    (h : edgeFilter g.edges s.outV s.inV = []) :
    addUpdateEdge g s =
      ⟨g.vertices, g.edges ++ [⟨g.nextId, s.label, s.outV, s.inV, s.count⟩],
        g.nextId + 1⟩ := by
  simp only [addUpdateEdge, lookupEdges, h, createEdge]

theorem addUpdateEdge_found (g : GraphState) (s : EdgeSpec) (found : Edge)
    (rest : List Edge) (h : edgeFilter g.edges s.outV s.inV = found :: rest) :
    addUpdateEdge g s =
      ⟨g.vertices,
        g.edges.map (fun e =>
          if e.id == found.id then {e with count := some (found.count.getD 0 + 1)}
          else e),
        g.nextId⟩ := by
  simp only [addUpdateEdge, lookupEdges, h, updateEdge]

theorem addEdgeIfNotExists_found (g : GraphState) (s : EdgeSpec) (found : Edge)
    (rest : List Edge) (h : edgeFilter g.edges s.outV s.inV = found :: rest) :
    addEdgeIfNotExists g s = g := by
  simp only [addEdgeIfNotExists, lookupEdges, h]

theorem addEdgeIfNotExists_create (g : GraphState) (s : EdgeSpec)
    (h : edgeFilter g.edges s.outV s.inV = []) :
    addEdgeIfNotExists g s =
      ⟨g.vertices, g.edges ++ [⟨g.nextId, s.label, s.outV, s.inV, s.count⟩],
        g.nextId + 1⟩ := by
  simp only [addEdgeIfNotExists, lookupEdges, h, createEdge]

/-- C8: with a clean graph region (no edges yet among the three ordered
pairs) and distinct user, origin and recipe vertices, one
`recordRecipeRequestForUser` call records exactly three relationships —
`selects` user→recipe with count 1, `selects` origin→recipe with count 1,
and an existence-only `has` edge recipe→origin; repeating the identical
call increments both `selects` counts to 2 without duplicating the `has`
edge or adding any edge; with no origin vertex only the user→recipe
`selects` edge is recorded. -/
theorem recordRecipeRequestForUser_spec (g : GraphState) (u i r : Nat)
    (hb : ∀ e ∈ g.edges, e.id < g.nextId)
    (hui : u ≠ i) (hur2 : u ≠ r) (hir2 : i ≠ r)
    (hur : edgeFilter g.edges u r = [])
    (hir : edgeFilter g.edges i r = [])
    (hri : edgeFilter g.edges r i = []) :
    recordRecipeRequestForUser g r (some i) u =
      ⟨g.vertices,
        g.edges ++ [⟨g.nextId, "selects", u, r, some 1⟩,
          ⟨g.nextId + 1, "selects", i, r, some 1⟩,
          ⟨g.nextId + 2, "has", r, i, none⟩],
        g.nextId + 3⟩ ∧
    recordRecipeRequestForUser (recordRecipeRequestForUser g r (some i) u)
        r (some i) u =
      ⟨g.vertices,
        g.edges ++ [⟨g.nextId, "selects", u, r, some 2⟩,
          ⟨g.nextId + 1, "selects", i, r, some 2⟩,
          ⟨g.nextId + 2, "has", r, i, none⟩],
        g.nextId + 3⟩ ∧
    recordRecipeRequestForUser g r none u =
      ⟨g.vertices, g.edges ++ [⟨g.nextId, "selects", u, r, some 1⟩],
        g.nextId + 1⟩ := by
  have hne1 : (g.nextId + 1 == g.nextId) = false :=
    beq_eq_false_iff_ne.mpr (by omega)
  have hne2 : (g.nextId + 2 == g.nextId) = false :=
    beq_eq_false_iff_ne.mpr (by omega)
  have hne3 : (g.nextId + 2 == g.nextId + 1) = false :=
    beq_eq_false_iff_ne.mpr (by omega)
  have hne4 : (g.nextId == g.nextId + 1) = false :=
    beq_eq_false_iff_ne.mpr (by omega)
  have h1 : addUpdateEdge g ⟨"selects", u, r, some 1⟩ =
      ⟨g.vertices, g.edges ++ [⟨g.nextId, "selects", u, r, some 1⟩],
        g.nextId + 1⟩ :=
    addUpdateEdge_create g ⟨"selects", u, r, some 1⟩ hur
  have hfilter2 : edgeFilter (g.edges ++ [⟨g.nextId, "selects", u, r, some 1⟩]) i r
      = [] := by
    rw [edgeFilter_append, hir, List.nil_append]
    exact edgeFilter_singleton_neg ⟨g.nextId, "selects", u, r, some 1⟩ i r
      (fun hc => hui hc.1)
  have h2 : addUpdateEdge
      (⟨g.vertices, g.edges ++ [⟨g.nextId, "selects", u, r, some 1⟩],
        g.nextId + 1⟩ : GraphState) ⟨"selects", i, r, some 1⟩ =
      ⟨g.vertices,
        (g.edges ++ [⟨g.nextId, "selects", u, r, some 1⟩]) ++
          [⟨g.nextId + 1, "selects", i, r, some 1⟩],
        g.nextId + 2⟩ := by
    have := addUpdateEdge_create
      (⟨g.vertices, g.edges ++ [⟨g.nextId, "selects", u, r, some 1⟩],
        g.nextId + 1⟩ : GraphState) ⟨"selects", i, r, some 1⟩ hfilter2
    simpa using this
  have hfilter3 : edgeFilter
      ((g.edges ++ [⟨g.nextId, "selects", u, r, some 1⟩]) ++
        [⟨g.nextId + 1, "selects", i, r, some 1⟩]) r i = [] := by
    rw [edgeFilter_append, edgeFilter_append, hri, List.nil_append]
    rw [edgeFilter_singleton_neg ⟨g.nextId, "selects", u, r, some 1⟩ r i
      (fun hc => hur2 hc.1), List.nil_append]
    exact edgeFilter_singleton_neg ⟨g.nextId + 1, "selects", i, r, some 1⟩ r i
      (fun hc => hir2 hc.1)
  have h3 : addEdgeIfNotExists
      (⟨g.vertices,
        (g.edges ++ [⟨g.nextId, "selects", u, r, some 1⟩]) ++
          [⟨g.nextId + 1, "selects", i, r, some 1⟩],
        g.nextId + 2⟩ : GraphState) ⟨"has", r, i, none⟩ =
      ⟨g.vertices,
        g.edges ++ [⟨g.nextId, "selects", u, r, some 1⟩,
          ⟨g.nextId + 1, "selects", i, r, some 1⟩,
          ⟨g.nextId + 2, "has", r, i, none⟩],
        g.nextId + 3⟩ := by
    have := addEdgeIfNotExists_create
      (⟨g.vertices,
        (g.edges ++ [⟨g.nextId, "selects", u, r, some 1⟩]) ++
          [⟨g.nextId + 1, "selects", i, r, some 1⟩],
        g.nextId + 2⟩ : GraphState) ⟨"has", r, i, none⟩ hfilter3
    simpa [List.append_assoc] using this
  have hfirst : recordRecipeRequestForUser g r (some i) u =
      ⟨g.vertices,
        g.edges ++ [⟨g.nextId, "selects", u, r, some 1⟩,
          ⟨g.nextId + 1, "selects", i, r, some 1⟩,
          ⟨g.nextId + 2, "has", r, i, none⟩],
        g.nextId + 3⟩ := by
    simp only [recordRecipeRequestForUser, h1, h2, h3]
  refine ⟨hfirst, ?_, ?_⟩
  · rw [hfirst]
    have hlook1 : edgeFilter
        (g.edges ++ [⟨g.nextId, "selects", u, r, some 1⟩,
          ⟨g.nextId + 1, "selects", i, r, some 1⟩,
          ⟨g.nextId + 2, "has", r, i, none⟩]) u r =
        [⟨g.nextId, "selects", u, r, some 1⟩] := by
      rw [edgeFilter_append, hur, List.nil_append]
      rw [edgeFilter_cons_pos _ _ _ _ rfl rfl]
      rw [edgeFilter_cons_neg ⟨g.nextId + 1, "selects", i, r, some 1⟩ _ u r
        (fun hc => hui hc.1.symm)]
      rw [edgeFilter_singleton_neg ⟨g.nextId + 2, "has", r, i, none⟩ u r
        (fun hc => hur2 hc.1.symm)]
    have h4 : addUpdateEdge
        (⟨g.vertices,
          g.edges ++ [⟨g.nextId, "selects", u, r, some 1⟩,
            ⟨g.nextId + 1, "selects", i, r, some 1⟩,
            ⟨g.nextId + 2, "has", r, i, none⟩],
          g.nextId + 3⟩ : GraphState) ⟨"selects", u, r, some 1⟩ =
        ⟨g.vertices,
          g.edges ++ [⟨g.nextId, "selects", u, r, some 2⟩,
            ⟨g.nextId + 1, "selects", i, r, some 1⟩,
            ⟨g.nextId + 2, "has", r, i, none⟩],
          g.nextId + 3⟩ := by
      have := addUpdateEdge_found
        (⟨g.vertices,
          g.edges ++ [⟨g.nextId, "selects", u, r, some 1⟩,
            ⟨g.nextId + 1, "selects", i, r, some 1⟩,
            ⟨g.nextId + 2, "has", r, i, none⟩],
          g.nextId + 3⟩ : GraphState) ⟨"selects", u, r, some 1⟩ _ _ hlook1
      rw [this]
      simp only [List.map_append]
      rw [updateEdge_map_id _ _ _ (fun e he => Nat.ne_of_lt (hb e he))]
      simp [hne1, hne2]
    have hlook2 : edgeFilter
        (g.edges ++ [⟨g.nextId, "selects", u, r, some 2⟩,
          ⟨g.nextId + 1, "selects", i, r, some 1⟩,
          ⟨g.nextId + 2, "has", r, i, none⟩]) i r =
        [⟨g.nextId + 1, "selects", i, r, some 1⟩] := by
      rw [edgeFilter_append, hir, List.nil_append]
      rw [edgeFilter_cons_neg ⟨g.nextId, "selects", u, r, some 2⟩ _ i r
        (fun hc => hui hc.1)]
      rw [edgeFilter_cons_pos _ _ _ _ rfl rfl]
      rw [edgeFilter_singleton_neg ⟨g.nextId + 2, "has", r, i, none⟩ i r
        (fun hc => hir2 hc.1.symm)]
    have h5 : addUpdateEdge
        (⟨g.vertices,
          g.edges ++ [⟨g.nextId, "selects", u, r, some 2⟩,
            ⟨g.nextId + 1, "selects", i, r, some 1⟩,
            ⟨g.nextId + 2, "has", r, i, none⟩],
          g.nextId + 3⟩ : GraphState) ⟨"selects", i, r, some 1⟩ =
        ⟨g.vertices,
          g.edges ++ [⟨g.nextId, "selects", u, r, some 2⟩,
            ⟨g.nextId + 1, "selects", i, r, some 2⟩,
            ⟨g.nextId + 2, "has", r, i, none⟩],
          g.nextId + 3⟩ := by
      have := addUpdateEdge_found
        (⟨g.vertices,
          g.edges ++ [⟨g.nextId, "selects", u, r, some 2⟩,
            ⟨g.nextId + 1, "selects", i, r, some 1⟩,
            ⟨g.nextId + 2, "has", r, i, none⟩],
          g.nextId + 3⟩ : GraphState) ⟨"selects", i, r, some 1⟩ _ _ hlook2
      rw [this]
      simp only [List.map_append]
      rw [updateEdge_map_id _ _ _ (fun e he => by have := hb e he; omega)]
      simp [hne3, hne4]
    have hlook3 : edgeFilter
        (g.edges ++ [⟨g.nextId, "selects", u, r, some 2⟩,
          ⟨g.nextId + 1, "selects", i, r, some 2⟩,
          ⟨g.nextId + 2, "has", r, i, none⟩]) r i =
        [⟨g.nextId + 2, "has", r, i, none⟩] := by
      rw [edgeFilter_append, hri, List.nil_append]
      rw [edgeFilter_cons_neg ⟨g.nextId, "selects", u, r, some 2⟩ _ r i
        (fun hc => hur2 hc.1)]
      rw [edgeFilter_cons_neg ⟨g.nextId + 1, "selects", i, r, some 2⟩ _ r i
        (fun hc => hir2 hc.1)]
      rw [edgeFilter_cons_pos _ _ _ _ rfl rfl]
      rfl
    have h6 := addEdgeIfNotExists_found
      (⟨g.vertices,
        g.edges ++ [⟨g.nextId, "selects", u, r, some 2⟩,
          ⟨g.nextId + 1, "selects", i, r, some 2⟩,
          ⟨g.nextId + 2, "has", r, i, none⟩],
        g.nextId + 3⟩ : GraphState) ⟨"has", r, i, none⟩ _ _ hlook3
    simp only [recordRecipeRequestForUser, h4, h5, h6]
  · simp only [recordRecipeRequestForUser, h1]

/-- Witness for C8: recording recipe 2 for user 0 via origin 1 twice on a
clean graph creates the three edges once and then only bumps the two
`selects` counts. -/
theorem recordRecipeRequestForUser_spec_witness :
    recordRecipeRequestForUser ⟨[], [], 3⟩ 2 (some 1) 0 =
      ⟨[], [⟨3, "selects", 0, 2, some 1⟩, ⟨4, "selects", 1, 2, some 1⟩,
        ⟨5, "has", 2, 1, none⟩], 6⟩ ∧
    recordRecipeRequestForUser (recordRecipeRequestForUser ⟨[], [], 3⟩ 2 (some 1) 0)
        2 (some 1) 0 =
      ⟨[], [⟨3, "selects", 0, 2, some 2⟩, ⟨4, "selects", 1, 2, some 2⟩,
        ⟨5, "has", 2, 1, none⟩], 6⟩ := by
  have h := recordRecipeRequestForUser_spec ⟨[], [], 3⟩ 0 1 2
    (by simp) (by decide) (by decide) (by decide) rfl rfl rfl
  exact ⟨h.1, h.2.1⟩

/-- C9: `findFavoriteRecipesForUser` returns exactly the traversal's rows
— out-edges of the person ordered by `count` descending, destinations
filtered to recipes, truncated to the limit — mapped in order to
`{id, title}` read off each vertex's `name` and `title` properties; an
empty row set resolves to the empty list (the same value the map yields),
and the result never exceeds the limit. -/
theorem findFavoriteRecipesForUser_spec (g : GraphState) (personName : String)
    (n : Nat) :
    findFavoriteRecipesForUser g personName n =
      (((((List.insertionSort (fun e1 e2 : Edge => e2.count.getD 0 ≤ e1.count.getD 0)
          ((g.vertices.filter (fun v =>
              v.label == "person" && v.props.lookup "name" == some personName)).flatMap
            (fun v => g.edges.filter (fun e => e.outV == v.id)))).filterMap
          (fun e => g.vertices.find? (fun v => v.id == e.inV))).filter
          (fun v => v.label == "recipe")).take n).map
        (fun v => ⟨(v.props.lookup "name").getD "", (v.props.lookup "title").getD ""⟩)) ∧
    (findFavoriteRecipesForUser g personName n).length ≤ n := by
  have hmap : findFavoriteRecipesForUser g personName n =
      (favoriteQueryRows g personName n).map (fun v =>
        ⟨(v.props.lookup "name").getD "", (v.props.lookup "title").getD ""⟩) := by
    by_cases h : (favoriteQueryRows g personName n).isEmpty = true
    · rw [findFavoriteRecipesForUser]
      simp only [h, if_true]
      rw [List.isEmpty_iff] at h
      rw [h, List.map_nil]
    · rw [findFavoriteRecipesForUser]
      simp only [Bool.not_eq_true] at h
      simp [h]
  constructor
  · rw [hmap]
    rfl
  · rw [hmap, List.length_map]
    exact List.length_take_le n _
